import Mathlib

/-!
# fido2-golang: the CTAP2 command transport of `main.go`

A shallow embedding of `parseAuthenticatorData`, `Instructions`, `apduCMD` and
`runCMD` from `main.go`, and theorems about them.

Conventions of the embedding.

* A byte is a `Nat`; where Go narrows an integer (`uint16(..)`, the two bytes
  written by `binary.LittleEndian.PutUint16`) the reduction modulo a power of
  two is written out.
* A Go `error` value is a `GoError`; `nil` is `none`.
* The card (`*scard.Card`) is a state `σ` with a transmit function
  `Transport σ`; the CBOR codec is a `Codec`.  Both are collaborators of the
  program and are parameters here.
* `runCMD` returns, next to what the Go function returns, the record of what
  it did: the APDUs it passed to `Transmit` together with the replies, and the
  byte strings it passed to the decoder.
* The `for` loop of `runCMD` has no bound in the source, so the embedding
  carries fuel; `Outcome.outOfFuel` says the loop was still running.
-/

namespace Fido2

/-! ## Go values -/

/-- A Go `error` value that is not `nil`. -/
abbrev GoError := String

/-- Conversion of a Go `int` to `uint16`: the low 16 bits. -/
def uint16 (x : Int) : Nat := (x % 65536).toNat

/-- The two bytes `binary.LittleEndian.PutUint16` writes into a 2-byte buffer. -/
def PutUint16 (v : Nat) : List Nat := [v % 256, (v / 256) % 256]

/-- Slice expression `b[lo:hi]` on a slice whose indices are Go `int`s: `none` is
the runtime panic "slice bounds out of range".  Only used where `hi ≤ len(b)`
whenever `0 ≤ lo`, so the capacity of `b` plays no part. -/
def slice (b : List Nat) (lo hi : Int) : Option (List Nat) :=
  if 0 ≤ lo ∧ lo ≤ hi ∧ hi ≤ (b.length : Int) then
    some ((b.drop lo.toNat).take (hi.toNat - lo.toNat))
  else none

/-- Index expression `b[i]` with a Go `int` index: `none` is the runtime panic
"index out of range". -/
def index (b : List Nat) (i : Int) : Option Nat :=
  if 0 ≤ i then b[i.toNat]? else none

/-- A Go byte slice with its capacity: `elems` are the `len` visible bytes,
`spare` the bytes of the backing array between `len` and `cap`. -/
structure GoSlice where
  elems : List Nat
  spare : List Nat
  deriving DecidableEq, Repr

/-- Length `len(s)`. -/
def GoSlice.len (s : GoSlice) : Nat := s.elems.length

/-- Capacity `cap(s)`. -/
def GoSlice.cap (s : GoSlice) : Nat := s.elems.length + s.spare.length

/-- Slice expression `s[lo:hi]` with constant bounds: it needs
`lo ≤ hi ≤ cap(s)` and panics (`none`) otherwise. -/
def GoSlice.reslice (s : GoSlice) (lo hi : Nat) : Option GoSlice :=
  if lo ≤ hi ∧ hi ≤ s.cap then
    some ⟨((s.elems ++ s.spare).drop lo).take (hi - lo), (s.elems ++ s.spare).drop hi⟩
  else none

/-! ## Authenticator data -/

/-- The record `AuthenticatorData` of `main.go`. -/
structure AuthenticatorData where
  RpIdHash : GoSlice
  Flags : GoSlice
  SignCount : GoSlice
  deriving DecidableEq, Repr

/-- What a call of `parseAuthenticatorData` does: it returns the pair
`(AuthenticatorData, error)` or panics. -/
inductive ParseResult where
  | ret (ad : AuthenticatorData) (err : Option GoError)
  | panic
  deriving DecidableEq, Repr

/-- Function `parseAuthenticatorData`: three slice expressions, and the error
result is the literal `nil`. -/
def parseAuthenticatorData (b : GoSlice) : ParseResult :=
  match b.reslice 0 32, b.reslice 32 33, b.reslice 33 37 with
  | some rp, some fl, some sc => .ret ⟨rp, fl, sc⟩ none
  | _, _, _ => .panic

/-- The value of a byte string read as a big-endian number (how the
specification reads the four `SignCount` bytes). -/
def bigEndian (bs : List Nat) : Nat := bs.foldl (fun acc x => acc * 256 + x) 0

/-! ## Instructions -/

/-- Type `Instruction` is a Go `int`. -/
abbrev Instruction := Int

def MAKE_CREDENTIAL : Instruction := 0
def GET_ASSERTION : Instruction := 1
def GET_INFO : Instruction := 2
def CLIENT_PIN : Instruction := 3
def RESET : Instruction := 4
def GET_NEXT_ASSERTION : Instruction := 5

/-- The map `Instructions`, as its list of entries. -/
def Instructions : List (Instruction × Int) :=
  [ (MAKE_CREDENTIAL, 0x01),
    (GET_ASSERTION, 0x02),
    (GET_INFO, 0x04),
    (CLIENT_PIN, 0x06),
    (RESET, 0x07),
    (GET_NEXT_ASSERTION, 0x08) ]

/-- Map lookup `Instructions[inst]`: the zero value for a key that is absent. -/
def instructionCode (inst : Instruction) : Int :=
  match Instructions.lookup inst with
  | some c => c
  | none => 0

/-- Status byte `OK`. -/
def OK : List Nat := [0x90]

/-- Status byte `MORE_BYTES_AVAILABLE`. -/
def MORE_BYTES_AVAILABLE : List Nat := [0x61]

/-! ## The card -/

/-- What `card.Transmit` gives back: the response bytes or an error. -/
inductive Reply where
  | bytes (rsp : List Nat)
  | failed (err : GoError)
  deriving DecidableEq, Repr

/-- A card: its state and what one `Transmit` does with it. -/
abbrev Transport (σ : Type) := σ → List Nat → Reply × σ

/-- One call of `card.Transmit`: the APDU sent and what came back. -/
structure Exchange where
  apdu : List Nat
  reply : Reply
  deriving DecidableEq, Repr

/-- The card together with the record of the calls of `Transmit` made so far,
oldest first. -/
structure Session (σ : Type) where
  card : σ
  log : List Exchange

/-- Call `card.Transmit(apdu)` and record it. -/
def Session.Transmit {σ : Type} (T : Transport σ) (s : Session σ) (apdu : List Nat) :
    Reply × Session σ :=
  ((T s.card apdu).1, ⟨(T s.card apdu).2, s.log ++ [⟨apdu, (T s.card apdu).1⟩]⟩)

/-- A scripted card: its state is the list of replies still to give, and a
`Transmit` on an exhausted script fails. -/
def scripted : Transport (List Reply)
  | [], _ => (.failed "script exhausted", [])
  | r :: rest, _ => (r, rest)

/-! ## `apduCMD` -/

/-- What a call of `apduCMD` does: it returns `(body, sw1, sw2, err)` or panics. -/
inductive ApduResult where
  | ret (body sw1 : List Nat) (sw2 : Nat) (err : Option GoError)
  | panic
  deriving DecidableEq, Repr

/-- The part of `apduCMD` after a successful `Transmit`: the split of the
response into body and status bytes. -/
def splitReply (rsp : List Nat) : ApduResult :=
  let n : Int := rsp.length
  if n > 2 then
    match slice rsp 0 (n - 3), slice rsp (n - 2) (n - 1), index rsp (n - 1) with
    | some body, some sw1, some sw2 => .ret body sw1 sw2 none
    | _, _, _ => .panic
  else
    match slice rsp (n - 2) (n - 1), index rsp (n - 1) with
    | some sw1, some sw2 => .ret [] sw1 sw2 none
    | _, _ => .panic

/-- Function `apduCMD`. -/
def apduCMD {σ : Type} (T : Transport σ) (s : Session σ) (apdu : List Nat) :
    ApduResult × Session σ :=
  match s.Transmit T apdu with
  | (.failed err, s') => (.ret [] [] 0x00 (some err), s')
  | (.bytes rsp, s') => (splitReply rsp, s')

/-! ## `runCMD` -/

/-- The CBOR codec as `runCMD` uses it: `Encode` gives the bytes or an error,
`Decode` of a byte string into the response object gives the error result and
the object as the decoder left it. -/
structure Codec (α ρ : Type) where
  Encode : α → Except GoError (List Nat)
  Decode : List Nat → ρ → Option GoError × ρ

/-- How a call of `runCMD` ends. -/
inductive Outcome where
  | returned (err : Option GoError)
  | fatal (err : GoError)
  | panicked
  | outOfFuel
  deriving DecidableEq, Repr

/-- How the part of `runCMD` that talks to the card ends: the loop is left
with `res`, `sw1`, `sw2`, or the function is left. -/
inductive LoopExit (σ : Type) where
  | done (res sw1 : List Nat) (sw2 : Nat) (s : Session σ)
  | stop (o : Outcome) (s : Session σ)

/-- The loop `for bytes.Compare(sw1, MORE_BYTES_AVAILABLE) == 0 { ... }` of
`runCMD`; one unit of fuel per iteration. -/
def chainLoop {σ : Type} (T : Transport σ) :
    Nat → Session σ → List Nat → List Nat → Nat → LoopExit σ
  | 0, s, res, sw1, sw2 =>
    if sw1 = MORE_BYTES_AVAILABLE then .stop .outOfFuel s else .done res sw1 sw2 s
  | fuel + 1, s, res, sw1, sw2 =>
    if sw1 = MORE_BYTES_AVAILABLE then
      match apduCMD T s [0x00, 0xC0, 0x00, 0x00, sw2] with
      | (.panic, s') => .stop .panicked s'
      | (.ret _ _ _ (some err), s') => .stop (.returned (some err)) s'
      | (.ret r2 sw1' sw2' none, s') => chainLoop T fuel s' (res ++ r2) sw1' sw2'
    else .done res sw1 sw2 s

/-- The first `apduCMD` of `runCMD` and the loop after it. -/
def reassemble {σ : Type} (T : Transport σ) (fuel : Nat) (s : Session σ) (apdu : List Nat) :
    LoopExit σ :=
  match apduCMD T s apdu with
  | (.panic, s') => .stop .panicked s'
  | (.ret _ _ _ (some err), s') => .stop (.returned (some err)) s'
  | (.ret res sw1 sw2 none, s') => chainLoop T fuel s' res sw1 sw2

/-- The APDU `runCMD` builds from the instruction and the encoded request `b`. -/
def frame (inst : Instruction) (b : List Nat) : List Nat :=
  let instC := PutUint16 (uint16 (instructionCode inst))
  let lenC := PutUint16 (uint16 b.length)
  let makeReq := [0x80, 0x10, 0x80, 0x00, lenC.headD 0]
  let makeReq := makeReq ++ [instC.headD 0]
  makeReq ++ b

/-- The record of one call of `runCMD`: how it ended, the card and the calls of
`Transmit`, the byte strings passed to the decoder, and the response object. -/
structure Run (σ ρ : Type) where
  outcome : Outcome
  session : Session σ
  decoded : List (List Nat)
  out : ρ

/-- Function `runCMD`. -/
def runCMD {σ α ρ : Type} (T : Transport σ) (h : Codec α ρ) (fuel : Nat) (card : σ)
    (inst : Instruction) (corbObjectIn : α) (corbObjectOut : ρ) : Run σ ρ :=
  match h.Encode corbObjectIn with
  | .error err => ⟨.fatal err, ⟨card, []⟩, [], corbObjectOut⟩
  | .ok b =>
    match reassemble T fuel ⟨card, []⟩ (frame inst b) with
    | .stop o s => ⟨o, s, [], corbObjectOut⟩
    | .done res sw1 _ s =>
      if sw1 = OK then
        if res.length > 0 then
          ⟨.returned (h.Decode (res.drop 1) corbObjectOut).1, s, [res.drop 1],
            (h.Decode (res.drop 1) corbObjectOut).2⟩
        else ⟨.returned none, s, [], corbObjectOut⟩
      else ⟨.returned none, s, [], corbObjectOut⟩

/-- The APDUs of a record of `Transmit` calls. -/
def sentAPDUs (log : List Exchange) : List (List Nat) := log.map Exchange.apdu

/-- A codec whose request is already its encoding and whose response object is
the byte string last decoded. -/
def rawCodec : Codec (List Nat) (List Nat) where
  Encode := fun b => .ok b
  Decode := fun bs _ => (none, bs)

/-! ## Observations used in the statements -/

/-- Status byte SW1 of a response: the last byte but one. -/
def SW1 (rsp : List Nat) : Nat := rsp.getD (rsp.length - 2) 0

/-- Status byte SW2 of a response: the last byte. -/
def SW2 (rsp : List Nat) : Nat := rsp.getD (rsp.length - 1) 0

/-- The body `apduCMD` splits off a response. -/
def bodyOf (rsp : List Nat) : List Nat :=
  match splitReply rsp with
  | .ret body _ _ _ => body
  | .panic => []

/-- The session a loop exit carries. -/
def LoopExit.session {σ : Type} : LoopExit σ → Session σ
  | .done _ _ _ s => s
  | .stop _ s => s

/-- Whether the loop was cut off by the fuel of the embedding. -/
def LoopExit.ranOut {σ : Type} : LoopExit σ → Prop
  | .stop .outOfFuel _ => True
  | _ => False

/-- The record of a run of round trips on a scripted card answering `rs`: the
first sends `apdu`, each later one the get-response APDU for the `sw2` before it. -/
def roundTrips : List Nat → List (List Nat) → List Exchange
  | _, [] => []
  | apdu, r :: rs => ⟨apdu, .bytes r⟩ :: roundTrips [0x00, 0xC0, 0x00, 0x00, SW2 r] rs

/-- The exchanges `l` that follow an exchange whose reply was `prev` are those
of the loop of `runCMD`: another `Transmit` follows only a well-formed reply
with SW1 `0x61` and sends the get-response APDU for its SW2; and the record
ends after such a reply only if `oof` holds. -/
def ChainFrom (oof : Prop) : Reply → List Exchange → Prop
  | prev, [] => ∀ r, prev = .bytes r → 2 ≤ r.length → SW1 r = 0x61 → oof
  | prev, e :: l =>
    (∃ r, prev = .bytes r ∧ 2 ≤ r.length ∧ SW1 r = 0x61 ∧
      e.apdu = [0x00, 0xC0, 0x00, 0x00, SW2 r]) ∧ ChainFrom oof e.reply l

/-! ## Lemmas on the response split -/

theorem slice_eq_some (b : List Nat) (lo hi : Nat) (h1 : lo ≤ hi) (h2 : hi ≤ b.length) :
    slice b (lo : Int) (hi : Int) = some ((b.drop lo).take (hi - lo)) := by
  unfold slice
  have : (0 : Int) ≤ lo ∧ (lo : Int) ≤ hi ∧ (hi : Int) ≤ (b.length : Int) := by omega
  simp [this]

theorem slice_neg (b : List Nat) (lo hi : Int) (h : lo < 0) : slice b lo hi = none := by
  unfold slice
  have : ¬ ((0 : Int) ≤ lo ∧ lo ≤ hi ∧ hi ≤ (b.length : Int)) := by omega
  simp [this]

theorem drop_take_one (b : List Nat) (i : Nat) (h : i < b.length) :
    (b.drop i).take 1 = [b.getD i 0] := by
  induction b generalizing i with
  | nil => simp at h
  | cons x xs ih =>
    cases i with
    | zero => simp
    | succ j =>
      simp only [List.length_cons, Nat.add_lt_add_iff_right] at h
      simpa using ih j h

theorem splitReply_long (rsp : List Nat) (h : 2 < rsp.length) :
    splitReply rsp = .ret (rsp.take (rsp.length - 3)) [SW1 rsp] (SW2 rsp) none := by
  have e3 : ((rsp.length : Int) - 3) = ((rsp.length - 3 : Nat) : Int) := by omega
  have e2 : ((rsp.length : Int) - 2) = ((rsp.length - 2 : Nat) : Int) := by omega
  have e1 : ((rsp.length : Int) - 1) = ((rsp.length - 1 : Nat) : Int) := by omega
  have hgt : (rsp.length : Int) > 2 := by omega
  unfold splitReply
  simp only [hgt, if_true]
  rw [e3, e2, e1]
  have z : (0 : Int) = ((0 : Nat) : Int) := rfl
  rw [z, slice_eq_some rsp 0 (rsp.length - 3) (by omega) (by omega),
    slice_eq_some rsp (rsp.length - 2) (rsp.length - 1) (by omega) (by omega)]
  have hi : index rsp ((rsp.length - 1 : Nat) : Int) = some (SW2 rsp) := by
    unfold index SW2
    have : rsp.length - 1 < rsp.length := by omega
    simp [List.getD, List.getElem?_eq_getElem this]
  rw [hi]
  have : rsp.length - 1 - (rsp.length - 2) = 1 := by omega
  simp only [this, List.drop_zero, Nat.sub_zero]
  rw [drop_take_one rsp (rsp.length - 2) (by omega)]
  rfl

theorem splitReply_two (rsp : List Nat) (h : rsp.length = 2) :
    splitReply rsp = .ret [] [SW1 rsp] (SW2 rsp) none := by
  match rsp, h with
  | [a, b], _ => rfl

theorem splitReply_short (rsp : List Nat) (h : rsp.length < 2) : splitReply rsp = .panic := by
  match rsp, h with
  | [], _ => rfl
  | [a], _ => rfl

theorem splitReply_of_two_le (rsp : List Nat) (h : 2 ≤ rsp.length) :
    splitReply rsp = .ret (bodyOf rsp) [SW1 rsp] (SW2 rsp) none := by
  rcases Nat.lt_or_ge 2 rsp.length with h3 | h3
  · have := splitReply_long rsp h3
    simp [bodyOf, this]
  · have := splitReply_two rsp (by omega)
    simp [bodyOf, this]

theorem roundTrips_length (apdu : List Nat) (rs : List (List Nat)) :
    (roundTrips apdu rs).length = rs.length := by
  induction rs generalizing apdu with
  | nil => rfl
  | cons r rs ih => simp [roundTrips, ih]

theorem apduCMD_scripted_bytes (r : List Nat) (rest : List Reply) (log : List Exchange)
    (apdu : List Nat) :
    apduCMD scripted ⟨.bytes r :: rest, log⟩ apdu
      = (splitReply r, ⟨rest, log ++ [⟨apdu, .bytes r⟩]⟩) := rfl

theorem chainLoop_done {σ : Type} (T : Transport σ) (fuel : Nat) (s : Session σ)
    (res sw1 : List Nat) (sw2 : Nat) (h : sw1 ≠ MORE_BYTES_AVAILABLE) :
    chainLoop T fuel s res sw1 sw2 = .done res sw1 sw2 s := by
  cases fuel <;> simp [chainLoop, h]

theorem chainLoop_scripted (rs : List (List Nat)) (last : List Nat) (rest : List Reply) :
    ∀ (fuel : Nat) (log : List Exchange) (res : List Nat) (sw2 : Nat),
      (∀ r ∈ rs, 2 ≤ r.length ∧ SW1 r = 0x61) → 2 ≤ last.length → SW1 last ≠ 0x61 →
      rs.length + 1 ≤ fuel →
      chainLoop scripted fuel ⟨rs.map .bytes ++ .bytes last :: rest, log⟩ res
          MORE_BYTES_AVAILABLE sw2
        = .done (res ++ ((rs ++ [last]).map bodyOf).flatten) [SW1 last] (SW2 last)
            ⟨rest, log ++ roundTrips [0x00, 0xC0, 0x00, 0x00, sw2] (rs ++ [last])⟩ := by
  induction rs with
  | nil =>
    intro fuel log res sw2 _ hlast hsw hfuel
    obtain ⟨f, rfl⟩ : ∃ f, fuel = f + 1 := ⟨fuel - 1, by simp at hfuel; omega⟩
    have hne : [SW1 last] ≠ MORE_BYTES_AVAILABLE := by
      simpa [MORE_BYTES_AVAILABLE] using hsw
    simp only [List.map_nil, List.nil_append, chainLoop, if_true, apduCMD_scripted_bytes,
      splitReply_of_two_le last hlast]
    rw [chainLoop_done _ _ _ _ _ _ hne]
    simp [roundTrips]
  | cons r rs ih =>
    intro fuel log res sw2 hrs hlast hsw hfuel
    obtain ⟨f, rfl⟩ : ∃ f, fuel = f + 1 := ⟨fuel - 1, by simp at hfuel; omega⟩
    have hr := hrs r (List.mem_cons_self _ _)
    have hrs' : ∀ x ∈ rs, 2 ≤ x.length ∧ SW1 x = 0x61 :=
      fun x hx => hrs x (List.mem_cons_of_mem _ hx)
    simp only [List.map_cons, List.cons_append, chainLoop, if_true, apduCMD_scripted_bytes,
      splitReply_of_two_le r hr.1, hr.2]
    have := ih f (log ++ [⟨[0x00, 0xC0, 0x00, 0x00, sw2], .bytes r⟩]) (res ++ bodyOf r) (SW2 r)
      hrs' hlast hsw (by simp at hfuel; omega)
    simp only [MORE_BYTES_AVAILABLE] at this
    rw [this]
    simp [roundTrips, List.append_assoc]

theorem reassemble_scripted (rs : List (List Nat)) (last : List Nat) (rest : List Reply)
    (fuel : Nat) (log : List Exchange) (apdu : List Nat)
    (hrs : ∀ r ∈ rs, 2 ≤ r.length ∧ SW1 r = 0x61) (hlast : 2 ≤ last.length)
    (hsw : SW1 last ≠ 0x61) (hfuel : rs.length ≤ fuel) :
    reassemble scripted fuel ⟨rs.map .bytes ++ .bytes last :: rest, log⟩ apdu
      = .done (((rs ++ [last]).map bodyOf).flatten) [SW1 last] (SW2 last)
          ⟨rest, log ++ roundTrips apdu (rs ++ [last])⟩ := by
  cases rs with
  | nil =>
    have hne : [SW1 last] ≠ MORE_BYTES_AVAILABLE := by
      simpa [MORE_BYTES_AVAILABLE] using hsw
    simp only [reassemble, List.map_nil, List.nil_append, apduCMD_scripted_bytes,
      splitReply_of_two_le last hlast]
    rw [chainLoop_done _ _ _ _ _ _ hne]
    simp [roundTrips]
  | cons r rs =>
    have hr := hrs r (List.mem_cons_self _ _)
    have hrs' : ∀ x ∈ rs, 2 ≤ x.length ∧ SW1 x = 0x61 :=
      fun x hx => hrs x (List.mem_cons_of_mem _ hx)
    simp only [reassemble, List.map_cons, List.cons_append, apduCMD_scripted_bytes,
      splitReply_of_two_le r hr.1, hr.2]
    have := chainLoop_scripted rs last rest fuel (log ++ [⟨apdu, .bytes r⟩]) (bodyOf r) (SW2 r)
      hrs' hlast hsw (by simp at hfuel; omega)
    simp only [MORE_BYTES_AVAILABLE] at this
    rw [this]
    simp [roundTrips, List.append_assoc]


/-! ## Lemmas on the record of `Transmit` calls -/

theorem apduCMD_log {σ : Type} (T : Transport σ) (s : Session σ) (apdu : List Nat) :
    (apduCMD T s apdu).2.log = s.log ++ [⟨apdu, (T s.card apdu).1⟩] := by
  unfold apduCMD Session.Transmit
  cases h : (T s.card apdu).1 <;> simp

theorem apduCMD_fst {σ : Type} (T : Transport σ) (s : Session σ) (apdu : List Nat) :
    (apduCMD T s apdu).1 =
      match (T s.card apdu).1 with
      | .failed err => .ret [] [] 0x00 (some err)
      | .bytes rsp => splitReply rsp := by
  unfold apduCMD Session.Transmit
  cases h : (T s.card apdu).1 <;> simp

theorem chainLoop_log {σ : Type} (T : Transport σ) :
    ∀ (fuel : Nat) (s : Session σ) (res r : List Nat), 2 ≤ r.length →
      ∃ l, (chainLoop T fuel s res [SW1 r] (SW2 r)).session.log = s.log ++ l ∧
        ChainFrom (chainLoop T fuel s res [SW1 r] (SW2 r)).ranOut (.bytes r) l := by
  intro fuel
  induction fuel with
  | zero =>
    intro s res r _
    refine ⟨[], ?_, ?_⟩
    · by_cases h : [SW1 r] = MORE_BYTES_AVAILABLE <;> simp [chainLoop, h, LoopExit.session]
    · intro r' hr' _ hsw
      cases hr'
      simp [chainLoop, MORE_BYTES_AVAILABLE, hsw, LoopExit.ranOut]
  | succ f ih =>
    intro s res r hr
    by_cases h : [SW1 r] = MORE_BYTES_AVAILABLE
    · have hsw : SW1 r = 0x61 := by simpa [MORE_BYTES_AVAILABLE] using h
      have hlog := apduCMD_log T s [0x00, 0xC0, 0x00, 0x00, SW2 r]
      have hfst := apduCMD_fst T s [0x00, 0xC0, 0x00, 0x00, SW2 r]
      have hlink : ∃ r', Reply.bytes r = .bytes r' ∧ 2 ≤ r'.length ∧ SW1 r' = 0x61 ∧
          [0x00, 0xC0, 0x00, 0x00, SW2 r] = [0x00, 0xC0, 0x00, 0x00, SW2 r'] :=
        ⟨r, rfl, hr, hsw, rfl⟩
      rw [chainLoop]
      simp only [h, if_true]
      generalize apduCMD T s [0x00, 0xC0, 0x00, 0x00, SW2 r] = a at hlog hfst
      obtain ⟨a1, s'⟩ := a
      simp only at hlog hfst
      cases hrep : (T s.card [0x00, 0xC0, 0x00, 0x00, SW2 r]).1 with
      | failed err =>
        rw [hrep] at hfst hlog
        simp only at hfst
        subst hfst
        refine ⟨[⟨[0x00, 0xC0, 0x00, 0x00, SW2 r], .failed err⟩], by simpa [LoopExit.session] using hlog,
          hlink, ?_⟩
        intro r' hr' _ _
        cases hr'
      | bytes r2 =>
        rw [hrep] at hfst hlog
        simp only at hfst
        subst hfst
        rcases Nat.lt_or_ge r2.length 2 with hshort | hlong
        · rw [splitReply_short r2 hshort]
          refine ⟨[⟨[0x00, 0xC0, 0x00, 0x00, SW2 r], .bytes r2⟩],
            by simpa [LoopExit.session] using hlog, hlink, ?_⟩
          intro r' hr' hlen _
          cases hr'
          omega
        · rw [splitReply_of_two_le r2 hlong]
          obtain ⟨l, hl1, hl2⟩ := ih s' (res ++ bodyOf r2) r2 hlong
          refine ⟨⟨[0x00, 0xC0, 0x00, 0x00, SW2 r], .bytes r2⟩ :: l, ?_, hlink, hl2⟩
          simp only [hl1, hlog, List.append_assoc, List.singleton_append]
    · refine ⟨[], ?_, ?_⟩
      · simp [chainLoop, h, LoopExit.session]
      · intro r' hr' _ hsw
        cases hr'
        exact absurd (by simp [MORE_BYTES_AVAILABLE, hsw]) h

theorem reassemble_log {σ : Type} (T : Transport σ) (fuel : Nat) (s : Session σ)
    (apdu : List Nat) :
    ∃ rep l, (reassemble T fuel s apdu).session.log = s.log ++ ⟨apdu, rep⟩ :: l ∧
      ChainFrom (reassemble T fuel s apdu).ranOut rep l := by
  have hlog := apduCMD_log T s apdu
  have hfst := apduCMD_fst T s apdu
  unfold reassemble
  generalize apduCMD T s apdu = a at hlog hfst
  obtain ⟨a1, s'⟩ := a
  simp only at hlog hfst
  cases hrep : (T s.card apdu).1 with
  | failed err =>
    rw [hrep] at hfst hlog
    simp only at hfst
    subst hfst
    refine ⟨.failed err, [], by simpa [LoopExit.session] using hlog, ?_⟩
    intro r' hr' _ _
    cases hr'
  | bytes r =>
    rw [hrep] at hfst hlog
    simp only at hfst
    subst hfst
    rcases Nat.lt_or_ge r.length 2 with hshort | hlong
    · rw [splitReply_short r hshort]
      refine ⟨.bytes r, [], by simpa [LoopExit.session] using hlog, ?_⟩
      intro r' hr' hlen _
      cases hr'
      omega
    · rw [splitReply_of_two_le r hlong]
      obtain ⟨l, hl1, hl2⟩ := chainLoop_log T fuel s' (bodyOf r) r hlong
      exact ⟨.bytes r, l, by simp only [hl1, hlog, List.append_assoc, List.singleton_append], hl2⟩


theorem ChainFrom_index (oof : Prop) (hoof : ¬ oof) :
    ∀ (l : List Exchange) (e0 : Exchange), ChainFrom oof e0.reply l →
      ∀ (i : Nat) (e : Exchange), (e0 :: l)[i]? = some e →
        (i + 1 < (e0 :: l).length ↔
            ∃ r, e.reply = .bytes r ∧ 2 ≤ r.length ∧ SW1 r = 0x61) ∧
          ∀ (e' : Exchange) (r : List Nat), (e0 :: l)[i + 1]? = some e' →
            e.reply = .bytes r → e'.apdu = [0x00, 0xC0, 0x00, 0x00, SW2 r] := by
  intro l
  induction l with
  | nil =>
    intro e0 hc i e hi
    cases i with
    | zero =>
      simp only [List.getElem?_cons_zero, Option.some.injEq] at hi
      subst hi
      refine ⟨?_, ?_⟩
      · constructor
        · intro h
          simp at h
        · rintro ⟨r, hr, hlen, hsw⟩
          exact absurd (hc r hr hlen hsw) hoof
      · intro e' r h
        simp at h
    | succ j => simp at hi
  | cons e1 l ih =>
    intro e0 hc i e hi
    obtain ⟨⟨r0, hr0, hlen0, hsw0, hap⟩, hrest⟩ := hc
    cases i with
    | zero =>
      simp only [List.getElem?_cons_zero, Option.some.injEq] at hi
      subst hi
      refine ⟨?_, ?_⟩
      · constructor
        · intro _
          exact ⟨r0, hr0, hlen0, hsw0⟩
        · intro _
          simp
      · intro e' r h hr
        simp only [List.getElem?_cons_succ, List.getElem?_cons_zero, Option.some.injEq] at h
        subst h
        rw [hr0] at hr
        cases hr
        exact hap
    | succ j =>
      simp only [List.getElem?_cons_succ] at hi
      have := ih e1 hrest j e hi
      simpa [List.getElem?_cons_succ] using this

theorem chainLoop_scripted_fuel :
    ∀ (fuel : Nat) (s : Session (List Reply)) (res sw1 : List Nat) (sw2 : Nat),
      s.card.length < fuel → ¬ (chainLoop scripted fuel s res sw1 sw2).ranOut := by
  intro fuel
  induction fuel with
  | zero => intro s res sw1 sw2 h; omega
  | succ f ih =>
    intro s res sw1 sw2 h
    obtain ⟨card, log⟩ := s
    by_cases hm : sw1 = MORE_BYTES_AVAILABLE
    · cases card with
      | nil => simp [chainLoop, hm, apduCMD, Session.Transmit, scripted, LoopExit.ranOut]
      | cons rep rest =>
        cases rep with
        | failed err =>
          simp [chainLoop, hm, apduCMD, Session.Transmit, scripted, LoopExit.ranOut]
        | bytes r =>
          rw [chainLoop]
          simp only [hm, if_true, apduCMD_scripted_bytes]
          rcases Nat.lt_or_ge r.length 2 with hshort | hlong
          · simp [splitReply_short r hshort, LoopExit.ranOut]
          · simp only [splitReply_of_two_le r hlong]
            apply ih
            simp only [List.length_cons] at h
            simp only
            omega
    · simp [chainLoop, hm, LoopExit.ranOut]

theorem reassemble_scripted_fuel (fuel : Nat) (script : List Reply) (log : List Exchange)
    (apdu : List Nat) (h : script.length ≤ fuel) :
    ¬ (reassemble scripted fuel ⟨script, log⟩ apdu).ranOut := by
  cases script with
  | nil => simp [reassemble, apduCMD, Session.Transmit, scripted, LoopExit.ranOut]
  | cons rep rest =>
    cases rep with
    | failed err => simp [reassemble, apduCMD, Session.Transmit, scripted, LoopExit.ranOut]
    | bytes r =>
      simp only [reassemble, apduCMD_scripted_bytes]
      rcases Nat.lt_or_ge r.length 2 with hshort | hlong
      · simp [splitReply_short r hshort, LoopExit.ranOut]
      · simp only [splitReply_of_two_le r hlong]
        apply chainLoop_scripted_fuel
        simp only [List.length_cons] at h
        simp only
        omega

/-! ## Lemmas on `runCMD` -/

theorem runCMD_session {σ α ρ : Type} (T : Transport σ) (h : Codec α ρ) (fuel : Nat) (card : σ)
    (inst : Instruction) (x : α) (out : ρ) (b : List Nat) (henc : h.Encode x = .ok b) :
    (runCMD T h fuel card inst x out).session
      = (reassemble T fuel ⟨card, []⟩ (frame inst b)).session := by
  unfold runCMD
  rw [henc]
  simp only
  cases reassemble T fuel ⟨card, []⟩ (frame inst b) with
  | stop o s => rfl
  | done res sw1 sw2 s =>
    simp only [LoopExit.session]
    split_ifs <;> rfl

theorem runCMD_ranOut {σ α ρ : Type} (T : Transport σ) (h : Codec α ρ) (fuel : Nat) (card : σ)
    (inst : Instruction) (x : α) (out : ρ) (b : List Nat) (henc : h.Encode x = .ok b)
    (hout : (runCMD T h fuel card inst x out).outcome = .outOfFuel) :
    (reassemble T fuel ⟨card, []⟩ (frame inst b)).ranOut := by
  unfold runCMD at hout
  rw [henc] at hout
  simp only at hout
  cases hr : reassemble T fuel ⟨card, []⟩ (frame inst b) with
  | stop o s =>
    rw [hr] at hout
    simp only at hout
    subst hout
    trivial
  | done res sw1 sw2 s =>
    rw [hr] at hout
    simp only at hout
    split_ifs at hout

theorem runCMD_encode_failed {σ α ρ : Type} (T : Transport σ) (h : Codec α ρ) (fuel : Nat)
    (card : σ) (inst : Instruction) (x : α) (out : ρ) (err : GoError)
    (henc : h.Encode x = .error err) :
    runCMD T h fuel card inst x out = ⟨.fatal err, ⟨card, []⟩, [], out⟩ := by
  unfold runCMD
  rw [henc]

theorem runCMD_first {σ α ρ : Type} (T : Transport σ) (h : Codec α ρ) (fuel : Nat) (card : σ)
    (inst : Instruction) (x : α) (out : ρ) (b : List Nat) (henc : h.Encode x = .ok b) :
    (sentAPDUs (runCMD T h fuel card inst x out).session.log).head? = some (frame inst b) := by
  rw [runCMD_session T h fuel card inst x out b henc]
  obtain ⟨rep, l, hl, _⟩ := reassemble_log T fuel ⟨card, []⟩ (frame inst b)
  rw [hl]
  simp [sentAPDUs]

theorem runCMD_of_done {σ α ρ : Type} (T : Transport σ) (h : Codec α ρ) (fuel : Nat) (card : σ)
    (inst : Instruction) (x : α) (out : ρ) (b res sw1 : List Nat) (sw2 : Nat) (s : Session σ)
    (henc : h.Encode x = .ok b)
    (hre : reassemble T fuel ⟨card, []⟩ (frame inst b) = .done res sw1 sw2 s) :
    runCMD T h fuel card inst x out =
      if sw1 = OK then
        if res.length > 0 then
          ⟨.returned (h.Decode (res.drop 1) out).1, s, [res.drop 1],
            (h.Decode (res.drop 1) out).2⟩
        else ⟨.returned none, s, [], out⟩
      else ⟨.returned none, s, [], out⟩ := by
  unfold runCMD
  rw [henc]
  simp only
  rw [hre]

theorem reassemble_single_status (apdu : List Nat) (sw1 sw2 : Nat) (hsw : sw1 ≠ 0x61) :
    reassemble scripted 0 ⟨[.bytes [sw1, sw2]], []⟩ apdu
      = .done [] [sw1] sw2 ⟨[], [⟨apdu, .bytes [sw1, sw2]⟩]⟩ := by
  have := reassemble_scripted [] [sw1, sw2] [] 0 [] apdu (by simp) (by simp)
    (by simpa [SW1] using hsw) (by simp)
  simpa [roundTrips, bodyOf, splitReply_two, SW1, SW2] using this

theorem frame_eq (inst : Instruction) (b : List Nat) :
    frame inst b
      = [0x80, 0x10, 0x80, 0x00, b.length % 65536 % 256,
          (instructionCode inst % 65536).toNat % 256] ++ b := by
  have hlen : ((b.length : Int) % 65536).toNat = b.length % 65536 := by omega
  simp [frame, PutUint16, uint16, hlen]


/-! ## Command framing -/

/-- C1: for an instruction of the `Instructions` table with code `code` and an
encoded request `p` of at most 255 bytes, the first APDU `runCMD` passes to
`Transmit` is `80 10 80 00 len(p) code` followed by `p`, of `len(p) + 6` bytes;
the codes of the table are `0x01`, `0x02`, `0x04`, `0x06`, `0x07`, `0x08`. -/
theorem runCMD_first_apdu {σ α ρ : Type} (T : Transport σ) (h : Codec α ρ) (fuel : Nat)
    (card : σ) (inst : Instruction) (code : Int) (x : α) (out : ρ) (p : List Nat)
    (hinst : (inst, code) ∈ Instructions) (henc : h.Encode x = .ok p)
    (hlen : p.length ≤ 255) :
    (sentAPDUs (runCMD T h fuel card inst x out).session.log).head?
        = some ([0x80, 0x10, 0x80, 0x00, p.length, code.toNat] ++ p)
      ∧ ([0x80, 0x10, 0x80, 0x00, p.length, code.toNat] ++ p).length = p.length + 6
      ∧ Instructions = [(MAKE_CREDENTIAL, 0x01), (GET_ASSERTION, 0x02), (GET_INFO, 0x04),
          (CLIENT_PIN, 0x06), (RESET, 0x07), (GET_NEXT_ASSERTION, 0x08)] := by
  refine ⟨?_, by simp, rfl⟩
  rw [runCMD_first T h fuel card inst x out p henc, frame_eq]
  have hl : p.length % 65536 % 256 = p.length := by omega
  rw [hl]
  simp only [Instructions, List.mem_cons, Prod.mk.injEq, List.mem_singleton, List.not_mem_nil,
    or_false] at hinst
  rcases hinst with ⟨rfl, rfl⟩ | ⟨rfl, rfl⟩ | ⟨rfl, rfl⟩ | ⟨rfl, rfl⟩ | ⟨rfl, rfl⟩ | ⟨rfl, rfl⟩ <;> rfl

/-- C1, the example of a `MAKE_CREDENTIAL` request of 10 bytes on a scripted card:
the APDU is `80 10 80 00 0A 01` and the 10 bytes, 16 bytes in all. -/
theorem runCMD_first_apdu_witness :
    (sentAPDUs (runCMD scripted rawCodec 0 [.bytes [0x90, 0x00]] MAKE_CREDENTIAL
        [1, 2, 3, 4, 5, 6, 7, 8, 9, 10] []).session.log).head?
        = some ([0x80, 0x10, 0x80, 0x00, 0x0A, 0x01] ++ [1, 2, 3, 4, 5, 6, 7, 8, 9, 10])
      ∧ ([0x80, 0x10, 0x80, 0x00, 0x0A, 0x01] ++ [1, 2, 3, 4, 5, 6, 7, 8, 9, 10]).length = 16 := by
  have := runCMD_first_apdu scripted rawCodec 0 [.bytes [0x90, 0x00]] MAKE_CREDENTIAL 0x01
    [1, 2, 3, 4, 5, 6, 7, 8, 9, 10] [] [1, 2, 3, 4, 5, 6, 7, 8, 9, 10]
    (by decide) rfl (by decide)
  exact ⟨this.1, this.2.1⟩

/-- C8, as stated, fails: with a request of 256 bytes `runCMD` raises no error;
it transmits one APDU of 262 bytes whose length byte is `0x00` and returns `nil`. -/
theorem runCMD_oversized_payload_is_sent :
    (runCMD scripted rawCodec 0 [.bytes [0x90, 0x00]] MAKE_CREDENTIAL
        (List.replicate 256 0) []).outcome = .returned none
      ∧ sentAPDUs (runCMD scripted rawCodec 0 [.bytes [0x90, 0x00]] MAKE_CREDENTIAL
          (List.replicate 256 0) []).session.log
        = [[0x80, 0x10, 0x80, 0x00, 0x00, 0x01] ++ List.replicate 256 0] := by
  have hcode : (instructionCode MAKE_CREDENTIAL % 65536).toNat % 256 = 1 := by decide
  have key : ∀ p : List Nat, p.length = 256 →
      (runCMD scripted rawCodec 0 [.bytes [0x90, 0x00]] MAKE_CREDENTIAL p []).outcome
          = .returned none
        ∧ sentAPDUs (runCMD scripted rawCodec 0 [.bytes [0x90, 0x00]] MAKE_CREDENTIAL
            p []).session.log = [[0x80, 0x10, 0x80, 0x00, 0x00, 0x01] ++ p] := by
    intro p hp
    have hrun := runCMD_of_done scripted rawCodec 0 [.bytes [0x90, 0x00]] MAKE_CREDENTIAL
      p [] p [] [0x90] 0x00 _ rfl (reassemble_single_status _ 0x90 0x00 (by decide))
    rw [hrun]
    simp [OK, sentAPDUs, frame_eq, hcode, hp]
  exact key _ (List.length_replicate 256 0)

/-- C8 as amended: for an encoded request `p` longer than 255 bytes the framing
of `runCMD` raises no error; the APDU `80 10 80 00 (len(p) mod 256) code`
followed by `p` is passed to `Transmit`, the length byte being truncated. -/
theorem runCMD_oversized_payload_truncates_length {σ α ρ : Type} (T : Transport σ)
    (h : Codec α ρ) (fuel : Nat) (card : σ) (inst : Instruction) (code : Int) (x : α) (out : ρ)
    (p : List Nat) (hinst : (inst, code) ∈ Instructions) (henc : h.Encode x = .ok p)
    (hlen : 255 < p.length) :
    (sentAPDUs (runCMD T h fuel card inst x out).session.log).head?
        = some ([0x80, 0x10, 0x80, 0x00, p.length % 256, code.toNat] ++ p)
      ∧ p.length % 256 ≠ p.length := by
  refine ⟨?_, by omega⟩
  rw [runCMD_first T h fuel card inst x out p henc, frame_eq]
  have hl : p.length % 65536 % 256 = p.length % 256 := by omega
  rw [hl]
  simp only [Instructions, List.mem_cons, Prod.mk.injEq, List.mem_singleton,
    List.not_mem_nil, or_false] at hinst
  rcases hinst with ⟨rfl, rfl⟩ | ⟨rfl, rfl⟩ | ⟨rfl, rfl⟩ | ⟨rfl, rfl⟩ | ⟨rfl, rfl⟩ | ⟨rfl, rfl⟩ <;>
    rfl

/-- C8 as amended, at a request of 256 zero bytes on a scripted card: an APDU
with length byte `256 mod 256` is transmitted. -/
theorem runCMD_oversized_payload_truncates_length_witness :
    255 < (List.replicate 256 0).length
      ∧ (sentAPDUs (runCMD scripted rawCodec 0 [.bytes [0x90, 0x00]] MAKE_CREDENTIAL
          (List.replicate 256 0) []).session.log).head?
        = some ([0x80, 0x10, 0x80, 0x00, (List.replicate 256 0).length % 256, (0x01 : Int).toNat]
            ++ List.replicate 256 0) :=
  ⟨by rw [List.length_replicate]; omega,
    (runCMD_oversized_payload_truncates_length scripted rawCodec 0 [.bytes [0x90, 0x00]]
      MAKE_CREDENTIAL 0x01 (List.replicate 256 0) [] (List.replicate 256 0) (by decide) rfl
      (by rw [List.length_replicate]; omega)).1⟩

/-- C9, as stated, fails: for `MAKE_CREDENTIAL` and the empty request the APDU
`runCMD` transmits is `80 10 80 00 00 01`, and without its first 5 bytes it is
`01`, not the empty request. -/
theorem runCMD_strip_header_keeps_instruction_byte :
    (sentAPDUs (runCMD scripted rawCodec 0 [.bytes [0x90, 0x00]] MAKE_CREDENTIAL
        [] []).session.log).head? = some [0x80, 0x10, 0x80, 0x00, 0x00, 0x01]
      ∧ ([0x80, 0x10, 0x80, 0x00, 0x00, 0x01] : List Nat).drop 5 ≠ [] := by
  decide

/-- C9 as amended: for an instruction of the table with code `code` and an
encoded request `p` of at most 255 bytes, the APDU `runCMD` transmits first,
without its first 5 bytes, is the code byte followed by `p`; without its first
6 bytes (header and code byte) it is exactly `p`. -/
theorem runCMD_strip_header {σ α ρ : Type} (T : Transport σ) (h : Codec α ρ) (fuel : Nat)
    (card : σ) (inst : Instruction) (code : Int) (x : α) (out : ρ) (p : List Nat)
    (hinst : (inst, code) ∈ Instructions) (henc : h.Encode x = .ok p)
    (hlen : p.length ≤ 255) :
    ∃ apdu, (sentAPDUs (runCMD T h fuel card inst x out).session.log).head? = some apdu
      ∧ apdu.take 5 = [0x80, 0x10, 0x80, 0x00, p.length]
      ∧ apdu.drop 5 = code.toNat :: p
      ∧ apdu.drop 6 = p := by
  refine ⟨frame inst p, runCMD_first T h fuel card inst x out p henc, ?_⟩
  rw [frame_eq]
  have hl : p.length % 65536 % 256 = p.length := by omega
  rw [hl]
  simp only [Instructions, List.mem_cons, Prod.mk.injEq, List.mem_singleton, List.not_mem_nil,
    or_false] at hinst
  rcases hinst with ⟨rfl, rfl⟩ | ⟨rfl, rfl⟩ | ⟨rfl, rfl⟩ | ⟨rfl, rfl⟩ | ⟨rfl, rfl⟩ | ⟨rfl, rfl⟩ <;>
    exact ⟨rfl, rfl, rfl⟩

/-- C9 as amended, at `GET_INFO` and the request `A1 01 02` on a scripted card. -/
theorem runCMD_strip_header_witness :
    ∃ apdu, (sentAPDUs (runCMD scripted rawCodec 0 [.bytes [0x90, 0x00]] GET_INFO
        [0xA1, 0x01, 0x02] []).session.log).head? = some apdu
      ∧ apdu.take 5 = [0x80, 0x10, 0x80, 0x00, 3]
      ∧ apdu.drop 5 = 0x04 :: [0xA1, 0x01, 0x02]
      ∧ apdu.drop 6 = [0xA1, 0x01, 0x02] :=
  runCMD_strip_header scripted rawCodec 0 [.bytes [0x90, 0x00]] GET_INFO 0x04
    [0xA1, 0x01, 0x02] [] [0xA1, 0x01, 0x02] (by decide) rfl (by decide)

/-! ## The response split -/

/-- C4 fails on the code: for the 3-byte response `AA 90 00` `apduCMD` returns
`sw1 = 90`, `sw2 = 00` and an empty body, where the claim has the body `AA`; the
byte before the status word is dropped.  For the 2-byte response `90 00` the
body is empty and the status bytes are right. -/
theorem apduCMD_drops_byte_before_status :
    (apduCMD scripted ⟨[.bytes [0xAA, 0x90, 0x00]], []⟩ [0x00, 0xC0, 0x00, 0x00, 0x00]).1
        = .ret [] [0x90] 0x00 none
      ∧ ([0xAA, 0x90, 0x00] : List Nat).take (3 - 2) = [0xAA]
      ∧ (apduCMD scripted ⟨[.bytes [0x90, 0x00]], []⟩ [0x00, 0xC0, 0x00, 0x00, 0x00]).1
        = .ret [] [0x90] 0x00 none := by
  decide

/-! ## Authenticator data -/

theorem reslice_elems (b : GoSlice) (lo hi : Nat) (h1 : lo ≤ hi) (h2 : hi ≤ b.len) :
    b.reslice lo hi
      = some ⟨(b.elems.drop lo).take (hi - lo), b.elems.drop hi ++ b.spare⟩ := by
  unfold GoSlice.len at h2
  have hcap : lo ≤ hi ∧ hi ≤ b.cap := ⟨h1, by unfold GoSlice.cap; omega⟩
  unfold GoSlice.reslice
  rw [if_pos hcap]
  have hlo : lo ≤ b.elems.length := by omega
  rw [List.drop_append_of_le_length hlo, List.drop_append_of_le_length h2,
    List.take_append_of_le_length (by rw [List.length_drop]; omega)]

theorem parse_of_len (b : GoSlice) (hb : 37 ≤ b.len) :
    parseAuthenticatorData b
      = .ret ⟨⟨b.elems.take 32, b.elems.drop 32 ++ b.spare⟩,
          ⟨(b.elems.drop 32).take 1, b.elems.drop 33 ++ b.spare⟩,
          ⟨(b.elems.drop 33).take 4, b.elems.drop 37 ++ b.spare⟩⟩ none := by
  unfold parseAuthenticatorData
  rw [reslice_elems b 0 32 (by omega) (by omega), reslice_elems b 32 33 (by omega) (by omega),
    reslice_elems b 33 37 (by omega) (by omega)]
  simp

/-- C6: for a buffer `b` of at least 37 bytes `parseAuthenticatorData` returns a
`nil` error and a record with `RpIdHash` the 32 bytes `b[0..32)`, `Flags` the
byte `b[32]` and `SignCount` the 4 bytes `b[33..37)`; a buffer `c` with the same
first 37 bytes gives the same three fields.  For 32 bytes `AA`, then `41`, then
`00 00 00 05` the fields are 32 times `AA`, `41`, and `00 00 00 05`, which is 5
read big-endian. -/
theorem parseAuthenticatorData_fields (b c : GoSlice) (hb : 37 ≤ b.len) (hc : 37 ≤ c.len)
    (hsame : c.elems.take 37 = b.elems.take 37) :
    (∃ ad, parseAuthenticatorData b = .ret ad none
        ∧ ad.RpIdHash.elems = b.elems.take 32 ∧ ad.RpIdHash.len = 32
        ∧ ad.Flags.elems = (b.elems.drop 32).take 1 ∧ ad.Flags.len = 1
        ∧ ad.SignCount.elems = (b.elems.drop 33).take 4 ∧ ad.SignCount.len = 4
        ∧ ∃ ad', parseAuthenticatorData c = .ret ad' none
          ∧ ad'.RpIdHash.elems = ad.RpIdHash.elems ∧ ad'.Flags.elems = ad.Flags.elems
          ∧ ad'.SignCount.elems = ad.SignCount.elems)
      ∧ (∃ ad, parseAuthenticatorData ⟨List.replicate 32 0xAA ++ [0x41, 0x00, 0x00, 0x00, 0x05], []⟩
            = .ret ad none
          ∧ ad.RpIdHash.elems = List.replicate 32 0xAA ∧ ad.Flags.elems = [0x41]
          ∧ ad.SignCount.elems = [0x00, 0x00, 0x00, 0x05] ∧ bigEndian ad.SignCount.elems = 5) := by
  have hb' : 37 ≤ b.elems.length := hb
  have hc' : 37 ≤ c.elems.length := hc
  have h32 : c.elems.take 32 = b.elems.take 32 := by
    have := congrArg (List.take 32) hsame
    simpa [List.take_take] using this
  have h1 : (c.elems.drop 32).take 1 = (b.elems.drop 32).take 1 := by
    have := congrArg (fun l => (l.drop 32).take 1) hsame
    simpa [List.drop_take, List.take_take] using this
  have h4 : (c.elems.drop 33).take 4 = (b.elems.drop 33).take 4 := by
    have := congrArg (fun l => (l.drop 33).take 4) hsame
    simpa [List.drop_take, List.take_take] using this
  refine ⟨⟨_, parse_of_len b hb, rfl, ?_, rfl, ?_, rfl, ?_, _, parse_of_len c hc, h32, h1, h4⟩,
    ⟨_, parse_of_len _ (by decide), by decide, by decide, by decide, by decide⟩⟩
  · simp [GoSlice.len]; omega
  · simp [GoSlice.len]; omega
  · simp [GoSlice.len]; omega

/-- C6 at the 37-byte buffer `AA .. AA 41 00 00 00 05` and a longer buffer with
the same first 37 bytes: both are parsed, into the same three fields. -/
theorem parseAuthenticatorData_fields_witness :
    ∃ ad ad',
      parseAuthenticatorData ⟨List.replicate 32 0xAA ++ [0x41, 0x00, 0x00, 0x00, 0x05], []⟩
          = .ret ad none
        ∧ parseAuthenticatorData
            ⟨List.replicate 32 0xAA ++ [0x41, 0x00, 0x00, 0x00, 0x05, 0xFF, 0xEE], [0x11]⟩
          = .ret ad' none
        ∧ ad'.RpIdHash.elems = ad.RpIdHash.elems ∧ ad'.Flags.elems = ad.Flags.elems
        ∧ ad'.SignCount.elems = ad.SignCount.elems := by
  obtain ⟨⟨ad, h1, _, _, _, _, _, _, ad', h2, h3, h4, h5⟩, _⟩ :=
    parseAuthenticatorData_fields
      ⟨List.replicate 32 0xAA ++ [0x41, 0x00, 0x00, 0x00, 0x05], []⟩
      ⟨List.replicate 32 0xAA ++ [0x41, 0x00, 0x00, 0x00, 0x05, 0xFF, 0xEE], [0x11]⟩
      (by decide) (by decide) (by decide)
  exact ⟨ad, ad', h1, h2, h3, h4, h5⟩

/-- C7, as stated, fails: on the empty buffer and on a 36-byte buffer of
capacity 36 `parseAuthenticatorData` panics, and on a 36-byte buffer of
capacity 37 it returns a record and a `nil` error; no error is returned. -/
theorem parseAuthenticatorData_short_buffer_no_error :
    parseAuthenticatorData ⟨[], []⟩ = .panic
      ∧ parseAuthenticatorData ⟨List.replicate 36 0xAA, []⟩ = .panic
      ∧ parseAuthenticatorData ⟨List.replicate 36 0xAA, [0x00]⟩
        = .ret ⟨⟨List.replicate 32 0xAA, [0xAA, 0xAA, 0xAA, 0xAA, 0x00]⟩,
            ⟨[0xAA], [0xAA, 0xAA, 0xAA, 0x00]⟩, ⟨[0xAA, 0xAA, 0xAA, 0x00], []⟩⟩ none := by
  decide

/-- C7 as amended: for a buffer `b` of fewer than 37 bytes
`parseAuthenticatorData` makes no length check and returns no error value; the
call panics on the slice bounds when the capacity of `b` is below 37, and
when the capacity is at least 37 it returns a `nil` error and the record cut
from the backing array `a` of `b`: `RpIdHash` is `a[0..32)`, `Flags` is
`a[32..33)` and `SignCount` is `a[33..37)`, of 32, 1 and 4 bytes, each with the
rest of the backing array as spare capacity, so that `SignCount` reaches past
the end of `b`. -/
theorem parseAuthenticatorData_short_buffer (b : GoSlice) (hb : b.len < 37) :
    (∀ ad err, parseAuthenticatorData b ≠ .ret ad (some err))
      ∧ (b.cap < 37 → parseAuthenticatorData b = .panic)
      ∧ (37 ≤ b.cap →
          parseAuthenticatorData b
              = .ret ⟨⟨(b.elems ++ b.spare).take 32, (b.elems ++ b.spare).drop 32⟩,
                  ⟨((b.elems ++ b.spare).drop 32).take 1, (b.elems ++ b.spare).drop 33⟩,
                  ⟨((b.elems ++ b.spare).drop 33).take 4, (b.elems ++ b.spare).drop 37⟩⟩ none
            ∧ ((b.elems ++ b.spare).take 32).length = 32
            ∧ (((b.elems ++ b.spare).drop 32).take 1).length = 1
            ∧ (((b.elems ++ b.spare).drop 33).take 4).length = 4
            ∧ (b.elems.drop 33).length < (((b.elems ++ b.spare).drop 33).take 4).length) := by
  refine ⟨?_, ?_, ?_⟩
  · intro ad err
    unfold parseAuthenticatorData
    split
    · simp
    · simp
  · intro hcap
    have h37 : b.reslice 33 37 = none := by
      unfold GoSlice.reslice
      rw [if_neg (by omega)]
    unfold parseAuthenticatorData
    rw [h37]
    split
    · rename_i heq
      cases heq
    · rfl
  · intro hcap
    unfold GoSlice.len at hb
    unfold GoSlice.cap at hcap
    refine ⟨?_, ?_, ?_, ?_, ?_⟩
    · unfold parseAuthenticatorData GoSlice.reslice
      rw [if_pos (by unfold GoSlice.cap; omega), if_pos (by unfold GoSlice.cap; omega),
        if_pos (by unfold GoSlice.cap; omega)]
      rfl
    · simp only [List.length_take, List.length_append]
      omega
    · simp only [List.length_take, List.length_drop, List.length_append]
      omega
    · simp only [List.length_take, List.length_drop, List.length_append]
      omega
    · simp only [List.length_take, List.length_drop, List.length_append]
      omega

/-- C7 as amended, at the empty buffer, where the call panics, and at the
36-byte buffer `01 02 .. 24` (hexadecimal) of capacity 38 whose backing array
goes on with `FE FD`, where the record is cut from the backing array:
`SignCount` is `22 23 24 FE`. -/
theorem parseAuthenticatorData_short_buffer_witness :
    (GoSlice.len ⟨[], []⟩ < 37 ∧ parseAuthenticatorData ⟨[], []⟩ = .panic)
      ∧ GoSlice.len ⟨(List.range 36).map (· + 1), [0xFE, 0xFD]⟩ < 37
      ∧ parseAuthenticatorData ⟨(List.range 36).map (· + 1), [0xFE, 0xFD]⟩
          = .ret ⟨⟨(List.range 32).map (· + 1), [0x21, 0x22, 0x23, 0x24, 0xFE, 0xFD]⟩,
              ⟨[0x21], [0x22, 0x23, 0x24, 0xFE, 0xFD]⟩,
              ⟨[0x22, 0x23, 0x24, 0xFE], [0xFD]⟩⟩ none :=
  ⟨⟨by decide, (parseAuthenticatorData_short_buffer ⟨[], []⟩ (by decide)).2.1 (by decide)⟩,
    by decide,
    ((parseAuthenticatorData_short_buffer ⟨(List.range 36).map (· + 1), [0xFE, 0xFD]⟩
      (by decide)).2.2 (by decide)).1⟩

/-! ## Reassembly and decoding -/

/-- C2: on a scripted card whose first `k` replies (each of at least 2 bytes)
have SW1 `0x61` and whose next reply has SW1 `0x90`, with fuel for `k`
iterations, `runCMD` leaves its loop after exactly `k + 1` calls of `Transmit`,
holding as `res` the concatenation, in order, of the `k + 1` bodies `apduCMD`
split off, and with `sw1 = OK`. -/
theorem runCMD_reassembles_chain {α ρ : Type} (h : Codec α ρ) (fuel : Nat)
    (inst : Instruction) (x : α) (out : ρ) (b : List Nat) (rs : List (List Nat))
    (last : List Nat) (rest : List Reply) (henc : h.Encode x = .ok b)
    (hlen : ∀ r ∈ rs, 2 ≤ r.length) (hmore : ∀ r ∈ rs, SW1 r = 0x61)
    (hlast : 2 ≤ last.length) (hok : SW1 last = 0x90) (hfuel : rs.length ≤ fuel) :
    ∃ s, reassemble scripted fuel ⟨rs.map .bytes ++ .bytes last :: rest, []⟩ (frame inst b)
          = .done ((rs ++ [last]).map bodyOf).flatten OK (SW2 last) s
      ∧ s.log.length = rs.length + 1
      ∧ s.log.map Exchange.reply = (rs ++ [last]).map .bytes
      ∧ s.card = rest
      ∧ (runCMD scripted h fuel (rs.map .bytes ++ .bytes last :: rest) inst x out).session = s := by
  have hre := reassemble_scripted rs last rest fuel [] (frame inst b)
    (fun r hr => ⟨hlen r hr, hmore r hr⟩) hlast (by omega) hfuel
  rw [hok] at hre
  refine ⟨_, hre, ?_, ?_, rfl, ?_⟩
  · simp [roundTrips_length]
  · simp only [List.nil_append]
    generalize frame inst b = apdu
    generalize rs ++ [last] = l
    induction l generalizing apdu with
    | nil => rfl
    | cons r l ih => simp [roundTrips, ih]
  · rw [runCMD_session scripted h fuel _ inst x out b henc, hre]
    rfl

/-- C2 on a scripted card that answers `09 01 02 03 00 61 04` and then
`05 06 00 90 00`: two calls of `Transmit`, and `res = 09 01 02 03 05 06`. -/
theorem runCMD_reassembles_chain_witness :
    ∃ s, reassemble scripted 1
          ⟨[[9, 1, 2, 3, 0, 0x61, 4]].map .bytes ++ .bytes [5, 6, 0, 0x90, 0] :: [], []⟩
          (frame MAKE_CREDENTIAL [0xA0])
          = .done [9, 1, 2, 3, 5, 6] OK 0 s
      ∧ s.log.length = 2 := by
  obtain ⟨s, h1, h2, _⟩ := runCMD_reassembles_chain rawCodec 1 MAKE_CREDENTIAL [0xA0] []
    [0xA0] [[9, 1, 2, 3, 0, 0x61, 4]] [5, 6, 0, 0x90, 0] [] rfl (by decide) (by decide)
    (by decide) (by decide) (by decide)
  exact ⟨s, h1, h2⟩

/-- C3, as stated, fails: when the card answers `6A 80`, `runCMD` returns `nil`
and the response object is as it was given. -/
theorem runCMD_failure_status_returns_nil :
    (runCMD scripted rawCodec 0 [.bytes [0x6A, 0x80]] MAKE_CREDENTIAL [0xA0] []).outcome
        = .returned none
      ∧ (runCMD scripted rawCodec 0 [.bytes [0x6A, 0x80]] MAKE_CREDENTIAL [0xA0] []).out = []
      ∧ SW1 [0x6A, 0x80] = 0x6A := by
  decide

/-- C3 as amended: on a scripted card whose first `k` replies have SW1 `0x61`
and whose next reply has an SW1 that is neither `0x90` nor `0x61` (all of at
least 2 bytes), with fuel for `k` iterations, `runCMD` stops after that reply,
having made `k + 1` calls of `Transmit`; it does not call the decoder, leaves
the response object as given and returns `nil`. -/
theorem runCMD_failure_status {α ρ : Type} (h : Codec α ρ) (fuel : Nat)
    (inst : Instruction) (x : α) (out : ρ) (b : List Nat) (rs : List (List Nat))
    (last : List Nat) (rest : List Reply) (henc : h.Encode x = .ok b)
    (hlen : ∀ r ∈ rs, 2 ≤ r.length) (hmore : ∀ r ∈ rs, SW1 r = 0x61)
    (hlast : 2 ≤ last.length) (hnok : SW1 last ≠ 0x90) (hnmore : SW1 last ≠ 0x61)
    (hfuel : rs.length ≤ fuel) :
    (runCMD scripted h fuel (rs.map .bytes ++ .bytes last :: rest) inst x out).outcome
        = .returned none
      ∧ (runCMD scripted h fuel (rs.map .bytes ++ .bytes last :: rest) inst x out).decoded = []
      ∧ (runCMD scripted h fuel (rs.map .bytes ++ .bytes last :: rest) inst x out).out = out
      ∧ (runCMD scripted h fuel (rs.map .bytes ++ .bytes last :: rest) inst x
          out).session.log.length = rs.length + 1
      ∧ (runCMD scripted h fuel (rs.map .bytes ++ .bytes last :: rest) inst x
          out).session.card = rest := by
  have hre := reassemble_scripted rs last rest fuel [] (frame inst b)
    (fun r hr => ⟨hlen r hr, hmore r hr⟩) hlast hnmore hfuel
  have hne : [SW1 last] ≠ OK := by simpa [OK] using hnok
  rw [runCMD_of_done scripted h fuel _ inst x out b _ _ _ _ henc hre, if_neg hne]
  simp [roundTrips_length]

/-- C3 as amended, on a scripted card that answers `01 02 00 61 02` and then
`6A 80`. -/
theorem runCMD_failure_status_witness :
    (runCMD scripted rawCodec 1 ([[1, 2, 0, 0x61, 2]].map .bytes ++ .bytes [0x6A, 0x80] :: [])
        MAKE_CREDENTIAL [0xA0] [7]).outcome = .returned none
      ∧ (runCMD scripted rawCodec 1 ([[1, 2, 0, 0x61, 2]].map .bytes ++ .bytes [0x6A, 0x80] :: [])
        MAKE_CREDENTIAL [0xA0] [7]).out = [7] := by
  obtain ⟨h1, _, h3, _⟩ := runCMD_failure_status rawCodec 1 MAKE_CREDENTIAL [0xA0] [7] [0xA0]
    [[1, 2, 0, 0x61, 2]] [0x6A, 0x80] [] rfl (by decide) (by decide) (by decide) (by decide)
    (by decide) (by decide)
  exact ⟨h1, h3⟩

/-- C5: when the card part of `runCMD` ends with `sw1 = OK` and reassembled
payload `p`, then for non-empty `p` the decoder is called once, on `p` without
its first byte, and `runCMD` returns what that call returned, the response
object being as the decoder left it; for empty `p` the decoder is not called,
the response object is as given and `runCMD` returns `nil`. -/
theorem runCMD_decodes_tail {σ α ρ : Type} (T : Transport σ) (h : Codec α ρ) (fuel : Nat)
    (card : σ) (inst : Instruction) (x : α) (out : ρ) (b p : List Nat) (sw2 : Nat)
    (s : Session σ) (henc : h.Encode x = .ok b)
    (hre : reassemble T fuel ⟨card, []⟩ (frame inst b) = .done p OK sw2 s) :
    (p ≠ [] →
        (runCMD T h fuel card inst x out).decoded = [p.tail]
          ∧ (runCMD T h fuel card inst x out).outcome = .returned (h.Decode p.tail out).1
          ∧ (runCMD T h fuel card inst x out).out = (h.Decode p.tail out).2)
      ∧ (p = [] →
        (runCMD T h fuel card inst x out).decoded = []
          ∧ (runCMD T h fuel card inst x out).outcome = .returned none
          ∧ (runCMD T h fuel card inst x out).out = out) := by
  rw [runCMD_of_done T h fuel card inst x out b p OK sw2 s henc hre, if_pos rfl]
  constructor
  · intro hp
    have hpos : p.length > 0 := List.length_pos.mpr hp
    rw [if_pos hpos, List.drop_one]
    exact ⟨rfl, rfl, rfl⟩
  · intro hp
    subst hp
    exact ⟨rfl, rfl, rfl⟩

/-- C5 on a scripted card that answers `00 A1 01 02 00 90 00`: the decoder is
called on `A1 01 02`. -/
theorem runCMD_decodes_tail_witness :
    (runCMD scripted rawCodec 0 [.bytes [0x00, 0xA1, 0x01, 0x02, 0x00, 0x90, 0x00]] GET_INFO
        [] []).decoded = [[0xA1, 0x01, 0x02]]
      ∧ (runCMD scripted rawCodec 0 [.bytes [0x00, 0xA1, 0x01, 0x02, 0x00, 0x90, 0x00]] GET_INFO
        [] []).out = [0xA1, 0x01, 0x02] := by
  have := (runCMD_decodes_tail scripted rawCodec 0
    [.bytes [0x00, 0xA1, 0x01, 0x02, 0x00, 0x90, 0x00]] GET_INFO [] [] []
    [0x00, 0xA1, 0x01, 0x02] 0x00 ⟨[], _⟩ rfl rfl).1 (by decide)
  exact ⟨this.1, this.2.2⟩

/-- C10: in a run of `runCMD` on a scripted card, with fuel for the whole
script, the loop is not cut off, and for every call of `Transmit`: a further
call follows exactly when its reply has at least 2 bytes and SW1 `0x61`, and
the call that follows sends exactly `00 C0 00 00 n` with `n` the SW2 of that
reply. -/
theorem runCMD_get_response_chain {α ρ : Type} (h : Codec α ρ) (fuel : Nat)
    (script : List Reply) (inst : Instruction) (x : α) (out : ρ)
    (hfuel : script.length ≤ fuel) :
    (runCMD scripted h fuel script inst x out).outcome ≠ .outOfFuel
      ∧ ∀ (i : Nat) (e : Exchange),
          (runCMD scripted h fuel script inst x out).session.log[i]? = some e →
          (i + 1 < (runCMD scripted h fuel script inst x out).session.log.length ↔
              ∃ r, e.reply = .bytes r ∧ 2 ≤ r.length ∧ SW1 r = 0x61)
            ∧ ∀ (e' : Exchange) (r : List Nat),
                (runCMD scripted h fuel script inst x out).session.log[i + 1]? = some e' →
                e.reply = .bytes r → e'.apdu = [0x00, 0xC0, 0x00, 0x00, SW2 r] := by
  cases henc : h.Encode x with
  | error err =>
    rw [runCMD_encode_failed scripted h fuel script inst x out err henc]
    refine ⟨by simp, ?_⟩
    intro i e hi
    simp at hi
  | ok b =>
    have hno := reassemble_scripted_fuel fuel script [] (frame inst b) hfuel
    refine ⟨fun hout => hno (runCMD_ranOut scripted h fuel script inst x out b henc hout), ?_⟩
    rw [runCMD_session scripted h fuel script inst x out b henc]
    obtain ⟨rep, l, hl, hc⟩ := reassemble_log scripted fuel ⟨script, []⟩ (frame inst b)
    rw [hl]
    simp only [List.nil_append]
    exact ChainFrom_index _ hno l ⟨frame inst b, rep⟩ hc

/-- C10 on a scripted card that answers `01 02 00 61 07` and then `03 00 90 00`:
the second call of `Transmit` sends `00 C0 00 00 07` and there is no third. -/
theorem runCMD_get_response_chain_witness :
    sentAPDUs (runCMD scripted rawCodec 2 [.bytes [1, 2, 0, 0x61, 7], .bytes [3, 0, 0x90, 0]]
        MAKE_CREDENTIAL [0xA0] []).session.log
        = [[0x80, 0x10, 0x80, 0x00, 0x01, 0x01, 0xA0], [0x00, 0xC0, 0x00, 0x00, 0x07]]
      ∧ (runCMD scripted rawCodec 2 [.bytes [1, 2, 0, 0x61, 7], .bytes [3, 0, 0x90, 0]]
        MAKE_CREDENTIAL [0xA0] []).outcome ≠ .outOfFuel :=
  ⟨by decide, (runCMD_get_response_chain rawCodec 2
    [.bytes [1, 2, 0, 0x61, 7], .bytes [3, 0, 0x90, 0]] MAKE_CREDENTIAL [0xA0] []
    (by decide)).1⟩

end Fido2
